import Mathlib

/-!
Verification of the FieldLogger frontend offline-first core.

Shallow embedding of the repository's synchronization core:
* `src/lib/db.ts` — the Dexie table of inspections (modelled as a list of
  records in primary-key traversal order abstracted by explicit sorting).
* `src/lib/sync-engine.ts` — `syncInspection`, `syncPendingInspections`,
  `startSyncEngine`.
* `src/components/CreateInspection.tsx` — `createInspectionAction`.
* `RealtimeInspections` (live merge view) — the merge of the remote
  authoritative snapshot with locally pending records.

Conventions of the embedding:
* `createdAt` and `syncedAt` are ISO-8601 UTC strings in the code; both
  the Dexie index order and `new Date(s).getTime()` order agree with the
  numeric timestamp, so timestamps are modelled as `Nat`.
* String lengths are code-unit counts in JS; inputs are modelled as Lean
  strings with `String.length`.
* A fetch outcome (2xx vs non-2xx vs network error) collapses to `Bool`:
  the code treats non-2xx and thrown network errors identically (returns
  `false`, leaves the store untouched).
-/

namespace FieldLogger

/-- The `status` field of an inspection: `'pending' | 'synced'` (db.ts). -/
inductive Status where
  | pending
  | synced
deriving DecidableEq

/-- The `Inspection` interface of `src/lib/db.ts`. -/
structure Inspection where
  id : String
  location : String
  technician : String
  findings : String
  status : Status
  createdAt : Nat
  syncedAt : Option Nat := none
deriving DecidableEq

/-- The Dexie table `db.inspections`, keyed by `id`. The list holds the
records; index traversal order is modelled by explicit sorting where the
code relies on it. -/
abbrev Store := List Inspection

/-- Dexie `db.inspections.add(record)`: inserts, rejecting with a
`ConstraintError` when the primary key already exists (Dexie `add`
semantics); `none` models the rejection. -/
def addInspection (s : Store) (i : Inspection) : Option Store :=
  if s.any (fun r => r.id == i.id) then none else some (s ++ [i])

/-- The update object `{ status: 'synced', syncedAt: t }` applied to a
record by `db.inspections.update` in `syncInspection`. -/
def markSynced (t : Nat) (r : Inspection) : Inspection :=
  { r with status := Status.synced, syncedAt := some t }

/-- Dexie `db.inspections.update(id, { status: 'synced', syncedAt: t })`:
modifies the record with the given primary key, if present; otherwise a
no-op (Dexie `update` resolves with 0). -/
def updateStatus (s : Store) (id : String) (t : Nat) : Store :=
  s.map (fun r => if r.id == id then markSynced t r else r)

/-- Lexicographic order on character lists by code point: the IndexedDB
sort order of string primary keys (ids here are ASCII/BMP, where code
point order and UTF-16 code unit order agree). -/
def lexLe : List Char → List Char → Bool
  | [], _ => true
  | _ :: _, [] => false
  | a :: as, b :: bs =>
    if a.toNat = b.toNat then lexLe as bs else decide (a.toNat < b.toNat)

/-- Primary-key order on inspections (ids are strings, compared
lexicographically by IndexedDB). -/
def idLe (a b : Inspection) : Prop := lexLe a.id.data b.id.data = true

instance : DecidableRel idLe := fun a b => by
  unfold idLe; infer_instance

/-- Dexie `db.inspections.where('status').equals('pending').toArray()`:
IndexedDB returns the matches in `(indexKey, primaryKey)` order; all
matches share the status key, so the result is ordered by primary key
`id` ascending. The sort is modelled with the stable `insertionSort`:
any stable sort computes the same list here. -/
def queryPending (s : Store) : List Inspection :=
  (s.filter (fun i => i.status == Status.pending)).insertionSort idLe

/-- Value of a JSON object field in the push payload. -/
inductive JVal where
  | str (s : String)
  | num (n : Nat)
deriving DecidableEq

/-- The JSON body built by `syncInspection`:
`const { status, ...inspectionWithoutStatus } = inspection;`
`{ ...inspectionWithoutStatus, createdAt: inspection.createdAt }` —
every field of the record except `status`, with `createdAt` taken from
the original record; `syncedAt` is spread only when the property is
present. -/
def payload (i : Inspection) : List (String × JVal) :=
  [("id", JVal.str i.id),
   ("location", JVal.str i.location),
   ("technician", JVal.str i.technician),
   ("findings", JVal.str i.findings),
   ("createdAt", JVal.num i.createdAt)]
  ++ (match i.syncedAt with
      | some t => [("syncedAt", JVal.num t)]
      | none => [])

/-- Model of `syncInspection` (sync-engine.ts 16–55): POST the payload; the
`remote` parameter is the outcome of the fetch (`response.ok`, with a
thrown network error also yielding `false` through the catch). On
success the record is marked synced locally with the current time; on
failure the store is untouched and `false` is returned. -/
def syncInspection (remote : List (String × JVal) → Bool) (now : Nat)
    (s : Store) (i : Inspection) : Bool × Store :=
  if remote (payload i) then (true, updateStatus s i.id now)
  else (false, s)

/-- Result of one sync pass: the value returned (`syncedCount`), the
store after the pass, and the records for which a fetch was issued, in
order of issue. -/
structure PassResult where
  count : Nat
  store : Store
  calls : List Inspection
deriving DecidableEq

/-- The `for` loop of `syncPendingInspections` (lines 73–77): pushes the
snapshot one record at a time, awaiting each `syncInspection` before the
next, counting successes, never aborting on failure. -/
def runPass (remote : List (String × JVal) → Bool) (now : Nat)
    (s : Store) : List Inspection → PassResult
  | [] => ⟨0, s, []⟩
  | i :: rest =>
    let step := syncInspection remote now s i
    let r := runPass remote now step.2 rest
    ⟨(if step.1 then 1 else 0) + r.count, r.store, i :: r.calls⟩

/-- Model of `syncPendingInspections` (sync-engine.ts 60–80): read the pending
snapshot, return 0 immediately when it is empty, else push each record
sequentially and return the number of successes. -/
def syncPendingInspections (remote : List (String × JVal) → Bool)
    (now : Nat) (s : Store) : PassResult :=
  let pending := queryPending s
  if pending.isEmpty then ⟨0, s, []⟩
  else runPass remote now s pending

/-! ## Record creation — `createInspectionAction` (CreateInspection.tsx) -/

/-- The `status` of the `FormState` returned by the action. -/
inductive FormStatus where
  | idle
  | pending
  | success
  | error
deriving DecidableEq

/-- The `FormState` returned by `createInspectionAction`. -/
structure FormState where
  status : FormStatus
  message : Option String := none
deriving DecidableEq

def msgLocationError : String := "La ubicación debe tener al menos 3 caracteres"

def msgTechnicianError : String := "El nombre del técnico debe tener al menos 2 caracteres"

def msgFindingsError : String := "Los hallazgos deben tener al menos 10 caracteres"

def msgSavedOnline : String := "¡Inspección guardada! Sincronizando..."

def msgSavedOffline : String := "¡Inspección guardada! Se sincronizará cuando esté en línea"

/-- Check `!location || location.length < 3` — `formData.get` yields `null`
(`none`) when the field is absent; `!location` is also true for the
empty string, which the length test catches anyway. -/
def locationInvalid : Option String → Bool
  | none => true
  | some l => decide (l.length < 3)

/-- Check `!technician || technician.length < 2`. -/
def technicianInvalid : Option String → Bool
  | none => true
  | some t => decide (t.length < 2)

/-- Check `!findings || findings.length < 10`. -/
def findingsInvalid : Option String → Bool
  | none => true
  | some f => decide (f.length < 10)

/-- Result of one invocation of the create action: the returned
`FormState`, the store after the action and its fast-path sync have
settled, and the records pushed by that fast-path sync (empty when
offline). -/
structure CreateResult where
  state : FormState
  store : Store
  calls : List Inspection
deriving DecidableEq

/-- Model of `createInspectionAction` (CreateInspection.tsx 20–73): validate in
the fixed order location, technician, findings; on success build the
record with a fresh id (`genId` stands for the `crypto.randomUUID()`
draw), `status: 'pending'`, `createdAt: now`, add it to Dexie, and — only
when online — fire `syncPendingInspections` as the fast path. A
`ConstraintError` thrown by `add` for a duplicate id is caught and
surfaced as an error state with the store untouched. -/
def createInspectionAction (remote : List (String × JVal) → Bool)
    (genId : String) (now : Nat) (online : Bool) (s : Store)
    (location technician findings : Option String) : CreateResult :=
  if locationInvalid location then
    ⟨⟨FormStatus.error, some msgLocationError⟩, s, []⟩
  else if technicianInvalid technician then
    ⟨⟨FormStatus.error, some msgTechnicianError⟩, s, []⟩
  else if findingsInvalid findings then
    ⟨⟨FormStatus.error, some msgFindingsError⟩, s, []⟩
  else
    let i : Inspection :=
      ⟨genId, location.getD "", technician.getD "", findings.getD "",
       Status.pending, now, none⟩
    match addInspection s i with
    | none => ⟨⟨FormStatus.error, some "ConstraintError"⟩, s, []⟩
    | some s1 =>
      if online then
        let r := syncPendingInspections remote now s1
        ⟨⟨FormStatus.success, some msgSavedOnline⟩, r.store, r.calls⟩
      else
        ⟨⟨FormStatus.success, some msgSavedOffline⟩, s1, []⟩

/-- The inspection object literal built by `createInspectionAction`
for the validated inputs: fresh id, the given content fields,
`status: 'pending'`, `createdAt: now`, no syncedAt. -/
def mkPending (genId : String) (now : Nat) (l te f : String) : Inspection :=
  ⟨genId, l, te, f, Status.pending, now, none⟩

/-! ## Live Merge View — `RealtimeInspections` -/

/-- JS `Map.prototype.set`: replace the value of an existing key in place,
else append a new entry. -/
def mapSet (m : List (String × Inspection)) (k : String) (v : Inspection) :
    List (String × Inspection) :=
  if m.any (fun p => p.1 == k) then
    m.map (fun p => if p.1 == k then (k, v) else p)
  else m ++ [(k, v)]

/-- Set every record of a list into a map in order, keyed by its id.
The `forEach` overlay loop, and also the `Map` constructor, which sets
its entries one by one. -/
def overlay (m : List (String × Inspection)) (l : List Inspection) :
    List (String × Inspection) :=
  l.foldl (fun m i => mapSet m i.id i) m

/-- Seeding `new Map(remote.map(i => [i.id, i]))`: sets each entry in order. -/
def mapFrom (l : List Inspection) : List (String × Inspection) :=
  overlay [] l

/-- Sort relation of the merge view:
`sort((a, b) => new Date(b.createdAt).getTime() - new Date(a.createdAt).getTime())`
orders by `createdAt` descending. -/
def newestFirst (a b : Inspection) : Prop := b.createdAt ≤ a.createdAt

instance : DecidableRel newestFirst := fun a b => Nat.decLe b.createdAt a.createdAt

instance : IsTotal Inspection newestFirst :=
  ⟨fun a b => Nat.le_total b.createdAt a.createdAt⟩

instance : IsTrans Inspection newestFirst :=
  ⟨fun _ _ _ h1 h2 => Nat.le_trans h2 h1⟩

/-- The merge of `RealtimeInspections` (part_002, lines 55–71): seed a
map from the remote snapshot keyed by id, overlay every locally-pending
record, then sort the values by `createdAt` descending (JS `sort` is
stable; any stable sort computes the same list). -/
def mergeInspections (remote localPending : List Inspection) :
    List Inspection :=
  ((overlay (mapFrom remote) localPending).map (fun p => p.2)).insertionSort
    newestFirst

/-! ## The Sync Engine's trigger behaviour — `startSyncEngine` -/

/-- One in-flight invocation of `syncPendingInspections`: the part of
its pending snapshot not yet pushed, and the fetch currently awaited,
if any, together with the outcome the remote will give it. -/
structure Pass where
  remaining : List Inspection
  inflight : Option (Inspection × Bool)
deriving DecidableEq

/-- State of the whole engine: the Dexie store, every pass started and
not yet finished, and the records for which a fetch has been issued, in
order of issue (the mock remote call counter of the spec). -/
structure EngState where
  store : Store
  passes : List Pass
  pushed : List Inspection
deriving DecidableEq

/-- Events of the engine, each an atomic step between `await`
suspension points of the code:
* `trigger` — an online event, a 30 s tick, or the post-create fast
  path runs `syncPendingInspections()`; the code guards none of them,
  so a new pass always starts with a fresh pending snapshot.
* `send p ok` — pass `p` reaches the `fetch` for its next record and
  suspends; `ok` is the outcome the remote will return.
* `settle p t` — the awaited fetch of pass `p` resolves at time `t`;
  on success the local `db.inspections.update` commits. -/
inductive EngEvent where
  | trigger
  | send (p : Nat) (ok : Bool)
  | settle (p : Nat) (t : Nat)

/-- Small-step semantics of `startSyncEngine`'s world: how one event
transforms the engine state. Events that do not match an enabled step
(out-of-range pass index, no record to send, nothing in flight) leave
the state unchanged. -/
def engStep (st : EngState) : EngEvent → EngState
  | EngEvent.trigger =>
    { st with passes := st.passes ++ [⟨queryPending st.store, none⟩] }
  | EngEvent.send p ok =>
    match st.passes[p]? with
    | some pass =>
      match pass.remaining, pass.inflight with
      | i :: rest, none =>
        { st with
          passes := st.passes.set p ⟨rest, some (i, ok)⟩,
          pushed := st.pushed ++ [i] }
      | _, _ => st
    | none => st
  | EngEvent.settle p t =>
    match st.passes[p]? with
    | some pass =>
      match pass.inflight with
      | some (i, ok) =>
        { st with
          store := if ok then updateStatus st.store i.id t else st.store,
          passes := st.passes.set p ⟨pass.remaining, none⟩ }
      | none => st
    | none => st

/-- Run a sequence of engine events from a state. -/
def engRun (st : EngState) (evs : List EngEvent) : EngState :=
  evs.foldl engStep st

/-! ## Operations of the core, for the status-monotonicity invariant -/

/-- One operation of the core acting on the Local Store: a create
action, a sync pass, or the status update of `syncInspection`. -/
inductive SyncOp where
  | create (remote : List (String × JVal) → Bool) (genId : String)
      (now : Nat) (online : Bool)
      (location technician findings : Option String)
  | syncPass (remote : List (String × JVal) → Bool) (now : Nat)
  | updStatus (id : String) (t : Nat)

/-- Effect of one operation on the store. -/
def applyOp (s : Store) : SyncOp → Store
  | SyncOp.create remote genId now online location technician findings =>
    (createInspectionAction remote genId now online s
      location technician findings).store
  | SyncOp.syncPass remote now => (syncPendingInspections remote now s).store
  | SyncOp.updStatus id t => updateStatus s id t

/-- Effect of a sequence of operations on the store. -/
def applyOps (s : Store) (ops : List SyncOp) : Store :=
  ops.foldl applyOp s

/-- Record with a given primary key: `db.inspections.get(id)`. -/
def getById (s : Store) (k : String) : Option Inspection :=
  s.find? (fun r => r.id == k)

/-- Status of the record with a given primary key, if present. -/
def statusOf (s : Store) (k : String) : Option Status :=
  (getById s k).map (fun r => r.status)

/-! ## Concrete records used in witnesses and counterexamples -/

/-- A pending record with id `a`. -/
def sampleA : Inspection :=
  ⟨"a", "Edificio A - Piso 3", "Ana Ruiz", "Grieta vertical en muro portante",
   Status.pending, 30, none⟩

/-- A synced record with id `b`. -/
def sampleB : Inspection :=
  ⟨"b", "Edificio B - Piso 1", "Luis Soto", "Humedad visible en el techo",
   Status.synced, 10, some 12⟩

/-- A pending record with id `c`. -/
def sampleC : Inspection :=
  ⟨"c", "Planta Norte", "Mar Pardo", "Filtracion junto a la ventana",
   Status.pending, 20, none⟩

/-- The remote's copy of record `a`, already accepted and synced. -/
def sampleA2 : Inspection :=
  ⟨"a", "Edificio A - Piso 3", "Ana Ruiz", "Grieta vertical en muro portante",
   Status.synced, 30, some 40⟩

/-- Pending record whose id order (`b` before nothing) disagrees with
its creation order: created first, id later in key order. -/
def cexOrderB : Inspection :=
  ⟨"b", "Sitio B", "Teo Vila", "hallazgos registrados en sitio B",
   Status.pending, 1, none⟩

/-- Pending record created second but first in primary-key order. -/
def cexOrderA : Inspection :=
  ⟨"a", "Sitio A", "Teo Vila", "hallazgos registrados en sitio A",
   Status.pending, 2, none⟩

/-- An already-synced record, for the updateStatus no-op question. -/
def cexSyncedRec : Inspection :=
  ⟨"s1", "Planta Sur", "Luis Soto", "hallazgos previos anotados",
   Status.synced, 3, some 4⟩

/-- The single pending record of the double-push race. -/
def racePending : Inspection :=
  ⟨"r1", "Bodega Central", "Eva Gil", "puerta de emergencia bloqueada",
   Status.pending, 5, none⟩

/-! ## Lemmas about the store primitives -/

@[simp] lemma markSynced_id (t : Nat) (r : Inspection) :
    (markSynced t r).id = r.id := rfl

@[simp] lemma markSynced_status (t : Nat) (r : Inspection) :
    (markSynced t r).status = Status.synced := rfl

lemma getById_cons (r : Inspection) (s : Store) (k : String) :
    getById (r :: s) k = if r.id = k then some r else getById s k := by
  by_cases h : r.id = k <;> simp [getById, List.find?_cons, h]

lemma updateStatus_cons (r : Inspection) (s : Store) (id : String) (t : Nat) :
    updateStatus (r :: s) id t =
      (if r.id = id then markSynced t r else r) :: updateStatus s id t := by
  by_cases h : r.id = id <;> simp [updateStatus, h]

lemma getById_updateStatus_self (s : Store) (id : String) (t : Nat) :
    getById (updateStatus s id t) id = (getById s id).map (markSynced t) := by
  induction s with
  | nil => simp [getById, updateStatus]
  | cons r s ih =>
    rw [updateStatus_cons]
    by_cases hr : r.id = id
    · rw [if_pos hr, getById_cons, getById_cons, markSynced_id,
        if_pos hr, if_pos hr]
      simp
    · rw [if_neg hr, getById_cons, getById_cons, if_neg hr, if_neg hr, ih]

lemma getById_updateStatus_ne {k id : String} (h : k ≠ id)
    (s : Store) (t : Nat) :
    getById (updateStatus s id t) k = getById s k := by
  induction s with
  | nil => simp [getById, updateStatus]
  | cons r s ih =>
    rw [updateStatus_cons]
    by_cases hr : r.id = id
    · have hrk : r.id ≠ k := fun e => h (e.symm.trans hr)
      rw [if_pos hr, getById_cons, getById_cons, markSynced_id,
        if_neg hrk, if_neg hrk, ih]
    · rw [if_neg hr, getById_cons, getById_cons, ih]

lemma getById_updateStatus_isSome (s : Store) (id k : String) (t : Nat)
    (h : (getById s k).isSome) :
    (getById (updateStatus s id t) k).isSome := by
  by_cases hk : k = id
  · subst hk
    rw [getById_updateStatus_self]
    simpa using h
  · rwa [getById_updateStatus_ne hk]

lemma getById_of_nodup_mem {s : Store} {i : Inspection}
    (hnd : (s.map (fun r => r.id)).Nodup) (hi : i ∈ s) :
    getById s i.id = some i := by
  induction s with
  | nil => cases hi
  | cons r s ih =>
    simp only [List.map_cons, List.nodup_cons] at hnd
    rcases List.mem_cons.mp hi with h | h
    · subst h; simp [getById_cons]
    · have hne : r.id ≠ i.id := fun e => hnd.1 (e ▸ List.mem_map_of_mem _ h)
      rw [getById_cons, if_neg hne]
      exact ih hnd.2 h

lemma getById_append (s l : Store) (k : String) :
    getById (s ++ l) k = (getById s k).or (getById l k) := by
  simp [getById, List.find?_append]

/-! ## The primary-key order is total and transitive -/

lemma lexLe_total : ∀ x y : List Char, lexLe x y = true ∨ lexLe y x = true
  | [], _ => Or.inl rfl
  | _ :: _, [] => Or.inr rfl
  | a :: as, b :: bs => by
    by_cases h : a.toNat = b.toNat
    · rcases lexLe_total as bs with ht | ht
      · left; simpa [lexLe, h] using ht
      · right; simpa [lexLe, h.symm] using ht
    · rcases Nat.lt_or_ge a.toNat b.toNat with hlt | hge
      · left; simp [lexLe, h, hlt]
      · have hgt : b.toNat < a.toNat :=
          Nat.lt_of_le_of_ne hge (fun e => h e.symm)
        have hne : b.toNat ≠ a.toNat := fun e => h e.symm
        right; simp [lexLe, hne, hgt]

lemma lexLe_trans :
    ∀ x y z : List Char, lexLe x y = true → lexLe y z = true →
      lexLe x z = true
  | [], _, _, _, _ => rfl
  | _ :: _, [], _, hxy, _ => by simp [lexLe] at hxy
  | _ :: _, _ :: _, [], _, hyz => by simp [lexLe] at hyz
  | a :: as, b :: bs, c :: cs, hxy, hyz => by
    by_cases hab : a.toNat = b.toNat <;> by_cases hbc : b.toNat = c.toNat
    · have hac : a.toNat = c.toNat := hab.trans hbc
      simp only [lexLe, hab, if_pos rfl] at hxy
      simp only [lexLe, hbc, if_pos rfl] at hyz
      simpa [lexLe, hac] using lexLe_trans as bs cs (by simpa using hxy)
        (by simpa using hyz)
    · have hlt : b.toNat < c.toNat := by
        simpa [lexLe, hbc] using hyz
      have hac : a.toNat < c.toNat := hab ▸ hlt
      have hacne : a.toNat ≠ c.toNat := Nat.ne_of_lt hac
      simp [lexLe, hacne, hac]
    · have hlt : a.toNat < b.toNat := by
        simpa [lexLe, hab] using hxy
      have hac : a.toNat < c.toNat := hbc ▸ hlt
      have hacne : a.toNat ≠ c.toNat := Nat.ne_of_lt hac
      simp [lexLe, hacne, hac]
    · have h1 : a.toNat < b.toNat := by
        simpa [lexLe, hab] using hxy
      have h2 : b.toNat < c.toNat := by
        simpa [lexLe, hbc] using hyz
      have hac : a.toNat < c.toNat := Nat.lt_trans h1 h2
      have hacne : a.toNat ≠ c.toNat := Nat.ne_of_lt hac
      simp [lexLe, hacne, hac]

instance : IsTotal Inspection idLe :=
  ⟨fun a b => lexLe_total a.id.data b.id.data⟩

instance : IsTrans Inspection idLe :=
  ⟨fun a b c => lexLe_trans a.id.data b.id.data c.id.data⟩

/-! ## Lemmas about the pending query -/

lemma mem_queryPending {s : Store} {i : Inspection} :
    i ∈ queryPending s ↔ i ∈ s ∧ i.status = Status.pending := by
  unfold queryPending
  rw [List.mem_insertionSort, List.mem_filter]
  simp

lemma queryPending_map_id_perm (s : Store) :
    ((queryPending s).map (fun i => i.id)).Perm
      ((s.filter (fun i => i.status == Status.pending)).map (fun i => i.id)) :=
  (List.perm_insertionSort idLe _).map _

lemma queryPending_nodup_ids {s : Store}
    (hnd : (s.map (fun r => r.id)).Nodup) :
    ((queryPending s).map (fun i => i.id)).Nodup := by
  refine (queryPending_map_id_perm s).nodup_iff.mpr ?_
  exact ((List.filter_sublist s).map _).nodup hnd

lemma queryPending_sorted (s : Store) :
    List.Pairwise idLe (queryPending s) :=
  List.sorted_insertionSort idLe _

/-! ## Lemmas about a sync pass -/

lemma syncPendingInspections_eq_runPass
    (remote : List (String × JVal) → Bool) (now : Nat) (s : Store) :
    syncPendingInspections remote now s = runPass remote now s (queryPending s) := by
  unfold syncPendingInspections
  by_cases h : (queryPending s).isEmpty
  · rw [List.isEmpty_iff] at h
    simp [h, runPass]
  · simp [h]

lemma runPass_calls (remote : List (String × JVal) → Bool) (now : Nat)
    (s : Store) (pend : List Inspection) :
    (runPass remote now s pend).calls = pend := by
  induction pend generalizing s with
  | nil => rfl
  | cons i rest ih => simp [runPass, ih]

lemma runPass_count (remote : List (String × JVal) → Bool) (now : Nat)
    (s : Store) (pend : List Inspection) :
    (runPass remote now s pend).count =
      pend.countP (fun i => remote (payload i)) := by
  induction pend generalizing s with
  | nil => rfl
  | cons i rest ih =>
    simp only [runPass, List.countP_cons, syncInspection]
    by_cases h : remote (payload i)
    · simp [h, ih]
      omega
    · simp [h, ih]

lemma syncInspection_pos {remote : List (String × JVal) → Bool}
    {now : Nat} {s : Store} {i : Inspection}
    (h : remote (payload i) = true) :
    syncInspection remote now s i = (true, updateStatus s i.id now) := by
  simp [syncInspection, h]

lemma syncInspection_neg {remote : List (String × JVal) → Bool}
    {now : Nat} {s : Store} {i : Inspection}
    (h : remote (payload i) = false) :
    syncInspection remote now s i = (false, s) := by
  simp [syncInspection, h]

lemma runPass_store_cons (remote : List (String × JVal) → Bool)
    (now : Nat) (s : Store) (i : Inspection) (rest : List Inspection) :
    (runPass remote now s (i :: rest)).store =
      (runPass remote now (syncInspection remote now s i).2 rest).store := rfl

lemma runPass_getById_not_mem {pend : List Inspection} {k : String}
    (hk : k ∉ pend.map (fun i => i.id))
    (remote : List (String × JVal) → Bool) (now : Nat) (s : Store) :
    getById (runPass remote now s pend).store k = getById s k := by
  induction pend generalizing s with
  | nil => rfl
  | cons i rest ih =>
    simp only [List.map_cons, List.mem_cons, not_or] at hk
    rw [runPass_store_cons]
    cases hr : remote (payload i)
    · rw [syncInspection_neg hr]
      exact ih hk.2 s
    · rw [syncInspection_pos hr]
      rw [ih hk.2, getById_updateStatus_ne hk.1]

lemma runPass_getById_mem {pend : List Inspection} {i : Inspection}
    (hnd : (pend.map (fun r => r.id)).Nodup) (hi : i ∈ pend)
    (remote : List (String × JVal) → Bool) (now : Nat) (s : Store) :
    getById (runPass remote now s pend).store i.id =
      if remote (payload i) then (getById s i.id).map (markSynced now)
      else getById s i.id := by
  induction pend generalizing s with
  | nil => cases hi
  | cons j rest ih =>
    simp only [List.map_cons, List.nodup_cons] at hnd
    rw [runPass_store_cons]
    rcases List.mem_cons.mp hi with h | h
    · subst h
      have hnot : i.id ∉ rest.map (fun r => r.id) := hnd.1
      cases hr : remote (payload i)
      · rw [syncInspection_neg hr]
        simp only [Bool.false_eq_true, if_false]
        exact runPass_getById_not_mem hnot remote now s
      · rw [syncInspection_pos hr]
        simp only [if_true]
        rw [runPass_getById_not_mem hnot, getById_updateStatus_self]
    · have hne : j.id ≠ i.id := fun e => hnd.1 (e ▸ List.mem_map_of_mem _ h)
      cases hr : remote (payload j)
      · rw [syncInspection_neg hr]
        exact ih hnd.2 h s
      · rw [syncInspection_pos hr]
        rw [ih hnd.2 h, getById_updateStatus_ne (Ne.symm hne)]

lemma runPass_getById_isSome {s : Store} {k : String}
    (h : (getById s k).isSome)
    (remote : List (String × JVal) → Bool) (now : Nat)
    (pend : List Inspection) :
    (getById (runPass remote now s pend).store k).isSome := by
  induction pend generalizing s with
  | nil => exact h
  | cons i rest ih =>
    rw [runPass_store_cons]
    cases hr : remote (payload i)
    · rw [syncInspection_neg hr]
      exact ih h
    · rw [syncInspection_pos hr]
      exact ih (getById_updateStatus_isSome _ _ _ _ h)

/-! ## Lemmas about the merge map -/

lemma mapSet_keys (m : List (String × Inspection)) (k : String)
    (v : Inspection) :
    (mapSet m k v).map Prod.fst =
      if m.any (fun p => p.1 == k) then m.map Prod.fst
      else m.map Prod.fst ++ [k] := by
  unfold mapSet
  by_cases h : m.any (fun p => p.1 == k)
  · rw [if_pos h, if_pos h, List.map_map]
    refine List.map_congr_left (fun p _ => ?_)
    by_cases hp : p.1 = k <;> simp [hp]
  · rw [if_neg h, if_neg h, List.map_append]
    rfl

lemma mapSet_keys_mem (m : List (String × Inspection)) (k : String)
    (v : Inspection) (q : String) :
    q ∈ (mapSet m k v).map Prod.fst ↔ q ∈ m.map Prod.fst ∨ q = k := by
  rw [mapSet_keys]
  by_cases h : m.any (fun p => p.1 == k)
  · rw [if_pos h]
    constructor
    · exact Or.inl
    · rintro (hm | rfl)
      · exact hm
      · rcases List.any_eq_true.mp h with ⟨p, hp, hpk⟩
        have hpq : p.1 = q := by simpa using hpk
        exact hpq ▸ List.mem_map_of_mem _ hp
  · rw [if_neg h, List.mem_append, List.mem_singleton]

lemma mapSet_keys_nodup {m : List (String × Inspection)}
    (h : (m.map Prod.fst).Nodup) (k : String) (v : Inspection) :
    ((mapSet m k v).map Prod.fst).Nodup := by
  rw [mapSet_keys]
  by_cases hh : m.any (fun p => p.1 == k)
  · rwa [if_pos hh]
  · have hk : k ∉ m.map Prod.fst := by
      intro hm
      rcases List.mem_map.mp hm with ⟨p, hp, hfst⟩
      exact hh (List.any_eq_true.mpr ⟨p, hp, by simp [hfst]⟩)
    rw [if_neg hh, List.nodup_append]
    refine ⟨h, List.nodup_singleton k, ?_⟩
    intro a ha hb
    rw [List.mem_singleton] at hb
    exact hk (hb ▸ ha)

lemma mem_mapSet_self (m : List (String × Inspection)) (k : String)
    (v : Inspection) : (k, v) ∈ mapSet m k v := by
  unfold mapSet
  by_cases h : m.any (fun p => p.1 == k)
  · rw [if_pos h]
    rcases List.any_eq_true.mp h with ⟨p, hp, hpk⟩
    refine List.mem_map.mpr ⟨p, hp, ?_⟩
    simp [hpk]
  · rw [if_neg h, List.mem_append, List.mem_singleton]
    exact Or.inr rfl

lemma mem_mapSet_of_ne {q k : String} (hne : q ≠ k)
    (m : List (String × Inspection)) (v w : Inspection) :
    (q, w) ∈ mapSet m k v ↔ (q, w) ∈ m := by
  unfold mapSet
  by_cases h : m.any (fun p => p.1 == k)
  · rw [if_pos h]
    constructor
    · intro hm
      rcases List.mem_map.mp hm with ⟨p, hp, hgp⟩
      by_cases hpk : p.1 = k
      · rw [if_pos (by simp [hpk])] at hgp
        exact absurd (congrArg Prod.fst hgp).symm hne
      · rw [if_neg (by simp [hpk])] at hgp
        exact hgp ▸ hp
    · intro hm
      refine List.mem_map.mpr ⟨(q, w), hm, ?_⟩
      simp [hne]
  · rw [if_neg h, List.mem_append, List.mem_singleton]
    constructor
    · rintro (hm | hm)
      · exact hm
      · exact absurd (congrArg Prod.fst hm) hne
    · exact fun hm => Or.inl hm

lemma mem_mapSet_sources {m : List (String × Inspection)} {k : String}
    {v : Inspection} {p : String × Inspection} (hp : p ∈ mapSet m k v) :
    p ∈ m ∨ p = (k, v) := by
  unfold mapSet at hp
  by_cases h : m.any (fun q => q.1 == k)
  · rw [if_pos h] at hp
    rcases List.mem_map.mp hp with ⟨q, hq, hgq⟩
    by_cases hqk : q.1 = k
    · right
      rw [if_pos (by simp [hqk])] at hgq
      exact hgq.symm
    · left
      rw [if_neg (by simp [hqk])] at hgq
      exact hgq ▸ hq
  · rw [if_neg h, List.mem_append, List.mem_singleton] at hp
    exact hp

lemma mapSet_wf {m : List (String × Inspection)}
    (hm : ∀ p ∈ m, p.1 = p.2.id) (v : Inspection) :
    ∀ p ∈ mapSet m v.id v, p.1 = p.2.id := by
  intro p hp
  rcases mem_mapSet_sources hp with h | h
  · exact hm p h
  · subst h; rfl

lemma overlay_cons (m : List (String × Inspection)) (i : Inspection)
    (l : List Inspection) :
    overlay m (i :: l) = overlay (mapSet m i.id i) l := rfl

lemma overlay_keys_mem (l : List Inspection)
    (m : List (String × Inspection)) (k : String) :
    k ∈ (overlay m l).map Prod.fst ↔
      k ∈ m.map Prod.fst ∨ k ∈ l.map (fun i => i.id) := by
  induction l generalizing m with
  | nil => simp [overlay]
  | cons i l ih =>
    rw [overlay_cons, ih, mapSet_keys_mem]
    simp only [List.map_cons, List.mem_cons]
    tauto

lemma overlay_keys_nodup (l : List Inspection)
    {m : List (String × Inspection)} (h : (m.map Prod.fst).Nodup) :
    ((overlay m l).map Prod.fst).Nodup := by
  induction l generalizing m with
  | nil => exact h
  | cons i l ih =>
    rw [overlay_cons]
    exact ih (mapSet_keys_nodup h i.id i)

lemma overlay_wf (l : List Inspection) {m : List (String × Inspection)}
    (h : ∀ p ∈ m, p.1 = p.2.id) : ∀ p ∈ overlay m l, p.1 = p.2.id := by
  induction l generalizing m with
  | nil => exact h
  | cons i l ih =>
    rw [overlay_cons]
    exact ih (mapSet_wf h i)

lemma overlay_mem_of_not_mem_ids {l : List Inspection} {k : String}
    (hk : k ∉ l.map (fun i => i.id)) {m : List (String × Inspection)}
    {v : Inspection} (hm : (k, v) ∈ m) : (k, v) ∈ overlay m l := by
  induction l generalizing m with
  | nil => exact hm
  | cons i l ih =>
    simp only [List.map_cons, List.mem_cons, not_or] at hk
    rw [overlay_cons]
    exact ih hk.2 ((mem_mapSet_of_ne hk.1 m i v).mpr hm)

lemma overlay_mem_self {l : List Inspection}
    (hnd : (l.map (fun i => i.id)).Nodup) {i : Inspection} (hi : i ∈ l)
    (m : List (String × Inspection)) : (i.id, i) ∈ overlay m l := by
  induction l generalizing m with
  | nil => cases hi
  | cons j l ih =>
    simp only [List.map_cons, List.nodup_cons] at hnd
    rw [overlay_cons]
    rcases List.mem_cons.mp hi with h | h
    · subst h
      exact overlay_mem_of_not_mem_ids hnd.1 (mem_mapSet_self m i.id i)
    · exact ih hnd.2 h _

lemma overlay_mem_sources {l : List Inspection}
    {m : List (String × Inspection)} {p : String × Inspection}
    (hp : p ∈ overlay m l) : p ∈ m ∨ p.2 ∈ l := by
  induction l generalizing m with
  | nil => exact Or.inl hp
  | cons i l ih =>
    rw [overlay_cons] at hp
    rcases ih hp with h | h
    · rcases mem_mapSet_sources h with h2 | h2
      · exact Or.inl h2
      · right
        rw [h2]
        exact List.mem_cons_self i l
    · right
      exact List.mem_cons_of_mem _ h

lemma pair_eq_of_nodup_keys {m : List (String × Inspection)}
    (hnd : (m.map Prod.fst).Nodup) {k : String} {a b : Inspection}
    (ha : (k, a) ∈ m) (hb : (k, b) ∈ m) : a = b := by
  induction m with
  | nil => cases ha
  | cons p m ih =>
    simp only [List.map_cons, List.nodup_cons] at hnd
    rcases List.mem_cons.mp ha with h1 | h1 <;>
      rcases List.mem_cons.mp hb with h2 | h2
    · exact congrArg Prod.snd (h1.trans h2.symm)
    · exfalso
      apply hnd.1
      have hk : k ∈ m.map Prod.fst := List.mem_map_of_mem _ h2
      have hp1 : p.1 = k := (congrArg Prod.fst h1).symm
      rw [hp1]
      exact hk
    · exfalso
      apply hnd.1
      have hk : k ∈ m.map Prod.fst := List.mem_map_of_mem _ h1
      have hp1 : p.1 = k := (congrArg Prod.fst h2).symm
      rw [hp1]
      exact hk
    · exact ih hnd.2 h1 h2

lemma mem_values {m : List (String × Inspection)} {i : Inspection} :
    i ∈ m.map Prod.snd ↔ ∃ k, (k, i) ∈ m := by
  rw [List.mem_map]
  constructor
  · rintro ⟨p, hp, rfl⟩
    exact ⟨p.1, hp⟩
  · rintro ⟨k, hk⟩
    exact ⟨(k, i), hk, rfl⟩

lemma values_ids_eq_keys {m : List (String × Inspection)}
    (hwf : ∀ p ∈ m, p.1 = p.2.id) :
    (m.map Prod.snd).map (fun i => i.id) = m.map Prod.fst := by
  rw [List.map_map]
  exact List.map_congr_left (fun p hp => (hwf p hp).symm)

/-! ## Status preservation lemmas -/

lemma statusOf_updateStatus_synced {s : Store} {k : String}
    (h : statusOf s k = some Status.synced) (id : String) (t : Nat) :
    statusOf (updateStatus s id t) k = some Status.synced := by
  unfold statusOf at *
  by_cases hk : k = id
  · subst hk
    rw [getById_updateStatus_self]
    cases hg : getById s k
    · rw [hg] at h
      simp at h
    · simp
  · rwa [getById_updateStatus_ne hk]

lemma statusOf_runPass_synced {s : Store} {k : String}
    (h : statusOf s k = some Status.synced)
    (remote : List (String × JVal) → Bool) (now : Nat)
    (pend : List Inspection) :
    statusOf (runPass remote now s pend).store k = some Status.synced := by
  induction pend generalizing s with
  | nil => exact h
  | cons i rest ih =>
    rw [runPass_store_cons]
    cases hr : remote (payload i)
    · rw [syncInspection_neg hr]
      exact ih h
    · rw [syncInspection_pos hr]
      exact ih (statusOf_updateStatus_synced h _ _)

lemma statusOf_append_left {s : Store} {k : String}
    (h : statusOf s k = some Status.synced) (l : Store) :
    statusOf (s ++ l) k = some Status.synced := by
  unfold statusOf at *
  rw [getById_append]
  cases hg : getById s k
  · rw [hg] at h
    simp at h
  · rw [hg] at h
    simpa using h

lemma addInspection_some {s : Store} {i : Inspection} {s' : Store}
    (h : addInspection s i = some s') : s' = s ++ [i] := by
  unfold addInspection at h
  by_cases hd : s.any (fun r => r.id == i.id)
  · rw [if_pos hd] at h
    cases h
  · rw [if_neg hd] at h
    exact (Option.some.injEq _ _ ▸ h).symm

lemma createInspectionAction_valid_eq
    (remote : List (String × JVal) → Bool) (genId : String) (now : Nat)
    (online : Bool) (s : Store) (location technician findings : Option String)
    (h1 : locationInvalid location = false)
    (h2 : technicianInvalid technician = false)
    (h3 : findingsInvalid findings = false) :
    createInspectionAction remote genId now online s location technician
        findings =
      match addInspection s ⟨genId, location.getD "", technician.getD "",
          findings.getD "", Status.pending, now, none⟩ with
      | none => ⟨⟨FormStatus.error, some "ConstraintError"⟩, s, []⟩
      | some s1 =>
        if online then
          ⟨⟨FormStatus.success, some msgSavedOnline⟩,
           (syncPendingInspections remote now s1).store,
           (syncPendingInspections remote now s1).calls⟩
        else ⟨⟨FormStatus.success, some msgSavedOffline⟩, s1, []⟩ := by
  unfold createInspectionAction
  rw [if_neg (by simp [h1]), if_neg (by simp [h2]), if_neg (by simp [h3])]

lemma statusOf_create_synced {s : Store} {k : String}
    (h : statusOf s k = some Status.synced)
    (remote : List (String × JVal) → Bool) (genId : String) (now : Nat)
    (online : Bool) (location technician findings : Option String) :
    statusOf (createInspectionAction remote genId now online s
      location technician findings).store k = some Status.synced := by
  by_cases h1 : locationInvalid location
  · unfold createInspectionAction
    rwa [if_pos h1]
  · by_cases h2 : technicianInvalid technician
    · unfold createInspectionAction
      rwa [if_neg h1, if_pos h2]
    · by_cases h3 : findingsInvalid findings
      · unfold createInspectionAction
        rwa [if_neg h1, if_neg h2, if_pos h3]
      · rw [createInspectionAction_valid_eq remote genId now online s
          location technician findings (by simpa using h1)
          (by simpa using h2) (by simpa using h3)]
        cases hadd : addInspection s
            ⟨genId, location.getD "", technician.getD "", findings.getD "",
             Status.pending, now, none⟩ with
        | none => exact h
        | some s1 =>
          have hs1 := addInspection_some hadd
          subst hs1
          cases online with
          | false => exact statusOf_append_left h _
          | true =>
            have hx : statusOf (syncPendingInspections remote now
                (s ++ [⟨genId, location.getD "", technician.getD "",
                  findings.getD "", Status.pending, now, none⟩])).store k
                = some Status.synced := by
              rw [syncPendingInspections_eq_runPass]
              exact statusOf_runPass_synced (statusOf_append_left h _) _ _ _
            exact hx

lemma statusOf_applyOp_synced {s : Store} {k : String}
    (h : statusOf s k = some Status.synced) (op : SyncOp) :
    statusOf (applyOp s op) k = some Status.synced := by
  cases op with
  | create remote genId now online location technician findings =>
    exact statusOf_create_synced h remote genId now online
      location technician findings
  | syncPass remote now =>
    show statusOf (syncPendingInspections remote now s).store k = _
    rw [syncPendingInspections_eq_runPass]
    exact statusOf_runPass_synced h _ _ _
  | updStatus id t => exact statusOf_updateStatus_synced h id t

lemma getById_none_of_fresh {s : Store} {genId : String}
    (hfresh : s.any (fun r => r.id == genId) = false) :
    getById s genId = none := by
  apply List.find?_eq_none.mpr
  intro r hr
  intro hrk
  have : s.any (fun r => r.id == genId) = true :=
    List.any_eq_true.mpr ⟨r, hr, hrk⟩
  rw [hfresh] at this
  cases this

lemma getById_append_fresh {s : Store} {i : Inspection}
    (hfresh : s.any (fun r => r.id == i.id) = false) :
    getById (s ++ [i]) i.id = some i := by
  rw [getById_append, getById_none_of_fresh hfresh]
  simp [getById, List.find?_cons]

lemma createInspectionAction_valid_some_eq
    (remote : List (String × JVal) → Bool) (genId : String) (now : Nat)
    (online : Bool) (s : Store) (l te f : String)
    (h1 : locationInvalid (some l) = false)
    (h2 : technicianInvalid (some te) = false)
    (h3 : findingsInvalid (some f) = false) :
    createInspectionAction remote genId now online s (some l) (some te)
        (some f) =
      match addInspection s (mkPending genId now l te f) with
      | none => ⟨⟨FormStatus.error, some "ConstraintError"⟩, s, []⟩
      | some s1 =>
        if online then
          ⟨⟨FormStatus.success, some msgSavedOnline⟩,
           (syncPendingInspections remote now s1).store,
           (syncPendingInspections remote now s1).calls⟩
        else ⟨⟨FormStatus.success, some msgSavedOffline⟩, s1, []⟩ := by
  rw [createInspectionAction_valid_eq remote genId now online s
    (some l) (some te) (some f) h1 h2 h3]
  rfl

/-! ## Claim theorems -/

/-- C7: every record pushed to the remote create endpoint is sent with a
body containing its id, location, technician, findings and its original
createdAt value unchanged, and the body never contains the local status
field. -/
theorem push_payload_fields_complete_and_no_status (i : Inspection) :
    (payload i).lookup "id" = some (JVal.str i.id)
    ∧ (payload i).lookup "location" = some (JVal.str i.location)
    ∧ (payload i).lookup "technician" = some (JVal.str i.technician)
    ∧ (payload i).lookup "findings" = some (JVal.str i.findings)
    ∧ (payload i).lookup "createdAt" = some (JVal.num i.createdAt)
    ∧ "status" ∉ (payload i).map Prod.fst := by
  cases h : i.syncedAt <;> simp [payload, h, List.lookup]

/-- C10: syncPendingInspections returns the number of records whose push
succeeded in the pass, at most the number of records pending at the
scan; its remote calls are exactly the pending snapshot, so with nothing
pending it returns 0 and issues no remote call at all. -/
theorem sync_pass_count_successes (remote : List (String × JVal) → Bool)
    (now : Nat) (s : Store) :
    (syncPendingInspections remote now s).count
        = (queryPending s).countP (fun i => remote (payload i))
    ∧ (syncPendingInspections remote now s).count ≤ (queryPending s).length
    ∧ (syncPendingInspections remote now s).calls = queryPending s := by
  rw [syncPendingInspections_eq_runPass]
  refine ⟨runPass_count _ _ _ _, ?_, runPass_calls _ _ _ _⟩
  rw [runPass_count]
  exact List.countP_le_length _

/-- C6 counterexample: the pass scans the pending records in the order
of the status index (primary key), not by createdAt ascending — here the
record created second (id `a`) is pushed first. -/
theorem sync_scan_not_createdAt_ascending :
    ¬ List.Pairwise (fun a b => a.createdAt ≤ b.createdAt)
      ((syncPendingInspections (fun _ => true) 9 [cexOrderB, cexOrderA]).calls) := by
  decide

/-- C6 amended: on each trigger the engine reads exactly the records
with status pending, in the status-index order (primary key id
ascending), and pushes them to the remote one at a time in that order. -/
theorem sync_scan_reads_pending_in_id_order
    (remote : List (String × JVal) → Bool) (now : Nat) (s : Store) :
    (syncPendingInspections remote now s).calls = queryPending s
    ∧ (∀ i, i ∈ (syncPendingInspections remote now s).calls ↔
        i ∈ s ∧ i.status = Status.pending)
    ∧ List.Pairwise idLe (syncPendingInspections remote now s).calls := by
  rw [syncPendingInspections_eq_runPass, runPass_calls]
  exact ⟨rfl, fun i => mem_queryPending, queryPending_sorted s⟩

/-- C9 counterexample: applying updateStatus to a record that is
already synced is not a no-op — with a timestamp other than the stored
one it overwrites syncedAt, changing the store. -/
theorem updateStatus_already_synced_not_noop :
    updateStatus [cexSyncedRec] "s1" 7 ≠ [cexSyncedRec] := by decide

/-- C9 amended: for a record id present in the store, applying
updateStatus(id, synced, t) twice with the same arguments leaves the
store exactly as applying it once; applied to an already-synced record
it does not fail — the record stays present with status synced — but
syncedAt is overwritten with t. -/
theorem updateStatus_idempotent_same_args
    (s : Store) (id : String) (t : Nat) (r : Inspection)
    (hpresent : getById s id = some r) :
    updateStatus (updateStatus s id t) id t = updateStatus s id t
    ∧ getById (updateStatus s id t) id = some (markSynced t r) := by
  constructor
  · unfold updateStatus
    rw [List.map_map]
    refine List.map_congr_left (fun q _ => ?_)
    by_cases hq : q.id = id
    · simp [hq, markSynced]
    · simp [hq]
  · rw [getById_updateStatus_self, hpresent]
    rfl

theorem updateStatus_idempotent_witness :
    updateStatus (updateStatus [cexSyncedRec] "s1" 7) "s1" 7
        = updateStatus [cexSyncedRec] "s1" 7
    ∧ getById (updateStatus [cexSyncedRec] "s1" 7) "s1"
        = some (markSynced 7 cexSyncedRec) :=
  updateStatus_idempotent_same_args [cexSyncedRec] "s1" 7 cexSyncedRec (by decide)

/-- C3: startSyncEngine installs no in-flight guard, so a second
trigger arriving while a pass's push is still awaited starts a second
concurrent pass whose snapshot still contains the record; the reachable
event sequence below issues two fetches for the same record id. -/
theorem overlapping_triggers_double_push :
    ((engRun ⟨[racePending], [], []⟩
        [EngEvent.trigger, EngEvent.send 0 true, EngEvent.trigger,
         EngEvent.send 1 true, EngEvent.settle 0 10, EngEvent.settle 1 11]).pushed.map
      (fun i => i.id)).count "r1" = 2 := by decide

/-- C8: record status is monotonic — no sequence of core operations
(creates, sync passes, status updates) ever moves a record's status
away from synced; the only transition any operation performs is
pending to synced. -/
theorem status_monotonic (s : Store) (ops : List SyncOp) (k : String)
    (h : statusOf s k = some Status.synced) :
    statusOf (applyOps s ops) k = some Status.synced := by
  induction ops generalizing s with
  | nil => exact h
  | cons op ops ih => exact ih _ (statusOf_applyOp_synced h op)

theorem status_monotonic_witness :
    statusOf (applyOps [sampleB]
      [SyncOp.create (fun _ => true) "n1" 50 true (some "Planta Este")
         (some "Ana Ruiz") (some "hallazgos nuevos anotados"),
       SyncOp.syncPass (fun _ => false) 60,
       SyncOp.updStatus "b" 70]) "b" = some Status.synced :=
  status_monotonic [sampleB] _ "b" (by decide)

/-- C2: in a sync pass, a record whose push the remote accepts ends the
pass with status synced and syncedAt set to the current time; a record
whose push fails is left exactly as it was (still pending, no field
changed), and the pass still pushes every other pending record — the
call list is the whole pending snapshot. -/
theorem sync_pass_per_record_outcome
    (remote : List (String × JVal) → Bool) (now : Nat) (s : Store)
    (hnd : (s.map (fun r => r.id)).Nodup) (i : Inspection)
    (hi : i ∈ queryPending s) :
    (remote (payload i) = true →
       getById (syncPendingInspections remote now s).store i.id
         = some (markSynced now i))
    ∧ (remote (payload i) = false →
       getById (syncPendingInspections remote now s).store i.id = some i
         ∧ i.status = Status.pending)
    ∧ (syncPendingInspections remote now s).calls = queryPending s := by
  have hqnd := queryPending_nodup_ids hnd
  have hmem := runPass_getById_mem hqnd hi remote now s
  have hsi : getById s i.id = some i :=
    getById_of_nodup_mem hnd (mem_queryPending.mp hi).1
  rw [syncPendingInspections_eq_runPass]
  refine ⟨?_, ?_, runPass_calls _ _ _ _⟩
  · intro hr
    rw [hmem, if_pos hr, hsi]
    rfl
  · intro hr
    rw [hmem, if_neg (by simp [hr]), hsi]
    exact ⟨rfl, (mem_queryPending.mp hi).2⟩

theorem sync_pass_per_record_witness :
    ((fun _ : List (String × JVal) => true) (payload sampleA) = true →
       getById (syncPendingInspections (fun _ => true) 99
         [sampleA, sampleB]).store sampleA.id = some (markSynced 99 sampleA))
    ∧ ((fun _ : List (String × JVal) => true) (payload sampleA) = false →
       getById (syncPendingInspections (fun _ => true) 99
         [sampleA, sampleB]).store sampleA.id = some sampleA
         ∧ sampleA.status = Status.pending)
    ∧ (syncPendingInspections (fun _ => true) 99 [sampleA, sampleB]).calls
        = queryPending [sampleA, sampleB] :=
  sync_pass_per_record_outcome (fun _ => true) 99 [sampleA, sampleB]
    (by decide) sampleA (by decide)

/-- C4: for every invalid input (location shorter than 3, or technician
shorter than 2, or findings shorter than 10, a missing field counting
as invalid), the create action returns a validation error and performs
no write to the Local Store and no remote call; the checks run in the
fixed order location, technician, findings, so the message returned is
the one of the first failing field. -/
theorem create_invalid_input_no_write
    (remote : List (String × JVal) → Bool) (genId : String) (now : Nat)
    (online : Bool) (s : Store)
    (location technician findings : Option String)
    (h : locationInvalid location = true ∨ technicianInvalid technician = true
      ∨ findingsInvalid findings = true) :
    (createInspectionAction remote genId now online s location technician
        findings).state.status = FormStatus.error
    ∧ (createInspectionAction remote genId now online s location technician
        findings).store = s
    ∧ (createInspectionAction remote genId now online s location technician
        findings).calls = []
    ∧ (createInspectionAction remote genId now online s location technician
        findings).state.message = some
        (if locationInvalid location then msgLocationError
         else if technicianInvalid technician then msgTechnicianError
         else msgFindingsError) := by
  unfold createInspectionAction
  by_cases h1 : locationInvalid location
  · rw [if_pos h1, if_pos h1]
    exact ⟨rfl, rfl, rfl, rfl⟩
  · rw [if_neg h1, if_neg h1]
    by_cases h2 : technicianInvalid technician
    · rw [if_pos h2, if_pos h2]
      exact ⟨rfl, rfl, rfl, rfl⟩
    · rw [if_neg h2, if_neg h2]
      have h3 : findingsInvalid findings = true := by
        rcases h with h | h | h
        · exact absurd h h1
        · exact absurd h h2
        · exact h
      rw [if_pos h3]
      exact ⟨rfl, rfl, rfl, rfl⟩

theorem create_invalid_input_witness :
    (locationInvalid (some "A1") = true
      ∨ technicianInvalid (some "Ana Ruiz") = true
      ∨ findingsInvalid (some "hallazgos suficientes aqui") = true)
    ∧ ((createInspectionAction (fun _ => true) "w1" 5 true [sampleB]
          (some "A1") (some "Ana Ruiz")
          (some "hallazgos suficientes aqui")).state.status = FormStatus.error
      ∧ (createInspectionAction (fun _ => true) "w1" 5 true [sampleB]
          (some "A1") (some "Ana Ruiz")
          (some "hallazgos suficientes aqui")).store = [sampleB]
      ∧ (createInspectionAction (fun _ => true) "w1" 5 true [sampleB]
          (some "A1") (some "Ana Ruiz")
          (some "hallazgos suficientes aqui")).calls = []
      ∧ (createInspectionAction (fun _ => true) "w1" 5 true [sampleB]
          (some "A1") (some "Ana Ruiz")
          (some "hallazgos suficientes aqui")).state.message = some
          (if locationInvalid (some "A1") then msgLocationError
           else if technicianInvalid (some "Ana Ruiz") then msgTechnicianError
           else msgFindingsError)) :=
  ⟨Or.inl (by decide),
   create_invalid_input_no_write (fun _ => true) "w1" 5 true [sampleB]
     (some "A1") (some "Ana Ruiz") (some "hallazgos suficientes aqui")
     (Or.inl (by decide))⟩

/-- C5: for every valid input and fresh id draw, the create action
succeeds; the record it builds carries exactly the given content
fields, status pending, createdAt now and the fresh id; the record is
written to the Local Store by `add` and is retrievable there before any
remote call is issued (the fast-path sync, fired only when online,
already operates on the store containing the record); when offline the
action makes no remote call at all, and in every case the record is
still present when the action settles. -/
theorem create_valid_persists_pending_before_network
    (remote : List (String × JVal) → Bool) (genId : String) (now : Nat)
    (online : Bool) (s : Store) (l te f : String)
    (hl : 3 ≤ l.length) (ht : 2 ≤ te.length) (hf : 10 ≤ f.length)
    (hfresh : s.any (fun r => r.id == genId) = false) :
    mkPending genId now l te f
        = ⟨genId, l, te, f, Status.pending, now, none⟩
    ∧ (createInspectionAction remote genId now online s (some l) (some te)
        (some f)).state.status = FormStatus.success
    ∧ addInspection s (mkPending genId now l te f)
        = some (s ++ [mkPending genId now l te f])
    ∧ getById (s ++ [mkPending genId now l te f]) genId
        = some (mkPending genId now l te f)
    ∧ (online = false →
        (createInspectionAction remote genId now online s (some l) (some te)
          (some f)).store = s ++ [mkPending genId now l te f]
        ∧ (createInspectionAction remote genId now online s (some l)
          (some te) (some f)).calls = [])
    ∧ (online = true →
        (createInspectionAction remote genId now online s (some l) (some te)
          (some f)).store = (syncPendingInspections remote now
            (s ++ [mkPending genId now l te f])).store
        ∧ (createInspectionAction remote genId now online s (some l)
          (some te) (some f)).calls = (syncPendingInspections remote now
            (s ++ [mkPending genId now l te f])).calls)
    ∧ ((getById (createInspectionAction remote genId now online s (some l)
        (some te) (some f)).store genId).isSome) := by
  have h1 : locationInvalid (some l) = false := by
    simp [locationInvalid]
    omega
  have h2 : technicianInvalid (some te) = false := by
    simp [technicianInvalid]
    omega
  have h3 : findingsInvalid (some f) = false := by
    simp [findingsInvalid]
    omega
  have hanyf : s.any (fun r => r.id == (mkPending genId now l te f).id)
      = false := hfresh
  have hadd : addInspection s (mkPending genId now l te f)
      = some (s ++ [mkPending genId now l te f]) := by
    unfold addInspection
    rw [if_neg (by simp [hanyf])]
  have hget : getById (s ++ [mkPending genId now l te f]) genId
      = some (mkPending genId now l te f) := getById_append_fresh hanyf
  have heq := createInspectionAction_valid_some_eq remote genId now online s
    l te f h1 h2 h3
  rw [heq, hadd]
  refine ⟨rfl, ?_, rfl, hget, ?_, ?_, ?_⟩
  · cases online <;> rfl
  · intro ho
    subst ho
    exact ⟨rfl, rfl⟩
  · intro ho
    subst ho
    exact ⟨rfl, rfl⟩
  · cases online with
    | false => simp [hget]
    | true =>
      have hx : (getById (syncPendingInspections remote now
          (s ++ [mkPending genId now l te f])).store genId).isSome := by
        rw [syncPendingInspections_eq_runPass]
        exact runPass_getById_isSome (by simp [hget]) remote now _
      exact hx

theorem create_valid_witness :
    mkPending "w2" 80 "Nave 4" "Iris Bo" "fuga de aceite en prensa"
        = ⟨"w2", "Nave 4", "Iris Bo", "fuga de aceite en prensa",
           Status.pending, 80, none⟩
    ∧ (createInspectionAction (fun _ => false) "w2" 80 false [sampleB]
        (some "Nave 4") (some "Iris Bo")
        (some "fuga de aceite en prensa")).state.status = FormStatus.success
    ∧ addInspection [sampleB]
        (mkPending "w2" 80 "Nave 4" "Iris Bo" "fuga de aceite en prensa")
        = some ([sampleB] ++
          [mkPending "w2" 80 "Nave 4" "Iris Bo" "fuga de aceite en prensa"])
    ∧ getById ([sampleB] ++
        [mkPending "w2" 80 "Nave 4" "Iris Bo" "fuga de aceite en prensa"])
        "w2" = some
          (mkPending "w2" 80 "Nave 4" "Iris Bo" "fuga de aceite en prensa")
    ∧ (false = false →
        (createInspectionAction (fun _ => false) "w2" 80 false [sampleB]
          (some "Nave 4") (some "Iris Bo")
          (some "fuga de aceite en prensa")).store = [sampleB] ++
            [mkPending "w2" 80 "Nave 4" "Iris Bo" "fuga de aceite en prensa"]
        ∧ (createInspectionAction (fun _ => false) "w2" 80 false [sampleB]
          (some "Nave 4") (some "Iris Bo")
          (some "fuga de aceite en prensa")).calls = [])
    ∧ (false = true →
        (createInspectionAction (fun _ => false) "w2" 80 false [sampleB]
          (some "Nave 4") (some "Iris Bo")
          (some "fuga de aceite en prensa")).store
          = (syncPendingInspections (fun _ => false) 80 ([sampleB] ++
            [mkPending "w2" 80 "Nave 4" "Iris Bo"
              "fuga de aceite en prensa"])).store
        ∧ (createInspectionAction (fun _ => false) "w2" 80 false [sampleB]
          (some "Nave 4") (some "Iris Bo")
          (some "fuga de aceite en prensa")).calls
          = (syncPendingInspections (fun _ => false) 80 ([sampleB] ++
            [mkPending "w2" 80 "Nave 4" "Iris Bo"
              "fuga de aceite en prensa"])).calls)
    ∧ ((getById (createInspectionAction (fun _ => false) "w2" 80 false
        [sampleB] (some "Nave 4") (some "Iris Bo")
        (some "fuga de aceite en prensa")).store "w2").isSome) :=
  create_valid_persists_pending_before_network (fun _ => false) "w2" 80
    false [sampleB] "Nave 4" "Iris Bo" "fuga de aceite en prensa"
    (by decide) (by decide) (by decide) (by decide)

/-- C1: the Live Merge View of a remote authoritative snapshot and a
set of locally-pending records contains records keyed by exactly the
ids occurring in either source, with no duplicate ids; every merged
record comes from one of the two sources; for an id present in the
local pending set the record kept is the locally-pending one; and the
result is sorted by createdAt descending. -/
theorem live_merge_view_correct (remote localPending : List Inspection)
    (hnd : (localPending.map (fun i => i.id)).Nodup) :
    ((mergeInspections remote localPending).map (fun i => i.id)).Nodup
    ∧ (∀ k : String,
        k ∈ (mergeInspections remote localPending).map (fun i => i.id) ↔
          k ∈ remote.map (fun i => i.id)
            ∨ k ∈ localPending.map (fun i => i.id))
    ∧ (∀ i ∈ mergeInspections remote localPending,
        i ∈ remote ∨ i ∈ localPending)
    ∧ (∀ i ∈ mergeInspections remote localPending,
        i.id ∈ localPending.map (fun i => i.id) → i ∈ localPending)
    ∧ List.Pairwise (fun a b => b.createdAt ≤ a.createdAt)
        (mergeInspections remote localPending) := by
  have hbase : ∀ p ∈ ([] : List (String × Inspection)), p.1 = p.2.id :=
    fun p hp => absurd hp (List.not_mem_nil p)
  have hwfm : ∀ p ∈ mapFrom remote, p.1 = p.2.id := overlay_wf remote hbase
  have hwf : ∀ p ∈ overlay (mapFrom remote) localPending, p.1 = p.2.id :=
    overlay_wf localPending hwfm
  have hbasend : (([] : List (String × Inspection)).map Prod.fst).Nodup := by
    simp
  have hkndm : ((mapFrom remote).map Prod.fst).Nodup :=
    overlay_keys_nodup remote hbasend
  have hknd : ((overlay (mapFrom remote) localPending).map Prod.fst).Nodup :=
    overlay_keys_nodup localPending hkndm
  have hperm : (mergeInspections remote localPending).Perm
      ((overlay (mapFrom remote) localPending).map Prod.snd) :=
    List.perm_insertionSort newestFirst _
  have hmem : ∀ i, i ∈ mergeInspections remote localPending ↔
      i ∈ (overlay (mapFrom remote) localPending).map Prod.snd :=
    fun i => List.mem_insertionSort newestFirst
  have hidperm :
      ((mergeInspections remote localPending).map (fun i => i.id)).Perm
        ((overlay (mapFrom remote) localPending).map Prod.fst) := by
    have h := hperm.map (fun i => i.id)
    rwa [values_ids_eq_keys hwf] at h
  refine ⟨?_, ?_, ?_, ?_, ?_⟩
  · exact hidperm.nodup_iff.mpr hknd
  · intro k
    rw [hidperm.mem_iff, overlay_keys_mem]
    unfold mapFrom
    rw [overlay_keys_mem]
    simp
  · intro i hi
    rcases mem_values.mp ((hmem i).mp hi) with ⟨k, hk⟩
    rcases overlay_mem_sources hk with h | h
    · have h2 : (k, i) ∈ overlay [] remote := h
      rcases overlay_mem_sources h2 with h3 | h3
      · exact absurd h3 (List.not_mem_nil _)
      · exact Or.inl h3
    · exact Or.inr h
  · intro i hi hk
    rcases List.mem_map.mp hk with ⟨j, hj, hjid⟩
    have hji : (j.id, j) ∈ overlay (mapFrom remote) localPending :=
      overlay_mem_self hnd hj _
    rcases mem_values.mp ((hmem i).mp hi) with ⟨q, hq⟩
    have hqid : q = i.id := hwf (q, i) hq
    rw [hqid] at hq
    rw [hjid] at hji
    have hij : i = j := pair_eq_of_nodup_keys hknd hq hji
    rw [hij]
    exact hj
  · exact List.sorted_insertionSort newestFirst _

theorem live_merge_view_witness :
    ((mergeInspections [sampleA, sampleB] [sampleC, sampleA2]).map
        (fun i => i.id)).Nodup
    ∧ (∀ k : String,
        k ∈ (mergeInspections [sampleA, sampleB] [sampleC, sampleA2]).map
            (fun i => i.id) ↔
          k ∈ [sampleA, sampleB].map (fun i => i.id)
            ∨ k ∈ [sampleC, sampleA2].map (fun i => i.id))
    ∧ (∀ i ∈ mergeInspections [sampleA, sampleB] [sampleC, sampleA2],
        i ∈ [sampleA, sampleB] ∨ i ∈ [sampleC, sampleA2])
    ∧ (∀ i ∈ mergeInspections [sampleA, sampleB] [sampleC, sampleA2],
        i.id ∈ [sampleC, sampleA2].map (fun i => i.id) →
          i ∈ [sampleC, sampleA2])
    ∧ List.Pairwise (fun a b => b.createdAt ≤ a.createdAt)
        (mergeInspections [sampleA, sampleB] [sampleC, sampleA2]) :=
  live_merge_view_correct [sampleA, sampleB] [sampleC, sampleA2] (by decide)

end FieldLogger
